import Mathlib

/-!
Shallow embedding of the FLUX task-manager backend pipeline core
(`src/backend/server.js` including the Magic Mic service, and the
Magic Breakdown / Progress Emitter services) and proofs about it.

JavaScript numbers that only ever meet comparisons against 0.6 are
embedded as rationals; SQLite rows become Lean structures with
`Option` fields for nullable columns; the external network calls
(Deepgram, OpenRouter) and the sqlite driver are oracle inputs to the
pipeline functions, so that every control-flow branch of the source is
represented.
-/

namespace Flux

/-- A row of the `tasks` table.  Nullable columns are `Option`;
`tags` is stored as a JSON array of strings in the database and is
modelled as the decoded list. -/
structure Task where
  id : Nat
  content : String
  title : Option String := none
  description : Option String := none
  status : String
  gravity_tag : Option String := none
  project_id : Option String := none
  due_date : Option String := none
  tags : List String := []
  confidence_score : Option ℚ := none
  is_ambiguous : Bool := false
  parent_task_id : Option Nat := none
  shard_order : Option Nat := none
  created_at : String := ""
deriving Repr, DecidableEq

/-- The task store: the `tasks` table plus the autoincrement counter
that produces `lastID` for inserts. -/
structure Storage where
  tasks : List Task
  nextId : Nat := 1
deriving Repr, DecidableEq

/-- The object `extractTaskWithLLM` parses out of the LLM response.
The adapters do not validate the shape beyond "parses as JSON", so
every field may be absent (`none`); `is_ambiguous` is used via JS
truthiness, hence a `Bool` (absent behaves as `false`). -/
structure ExtractedTask where
  task_title : Option String := none
  task_description : Option String := none
  gravity : Option String := none
  project_id : Option String := none
  due_date : Option String := none
  tags : Option (List String) := none
  project_confidence : Option ℚ := none
  is_ambiguous : Bool := false
deriving Repr, DecidableEq

/-- The JS comparison `extractedTask.project_confidence < 0.6`:
`undefined < 0.6` evaluates to `false`, so a missing confidence never
takes the review branch (server.js line 1069). -/
def confidenceBelowThreshold : Option ℚ → Bool
  | some c => decide (c < 3/5)
  | none => false

/-- The status-branch decision of `processAudioEntry`
(server.js lines 1065-1074): final status and final tags. -/
def statusBranch (ex : ExtractedTask) : String × List String :=
  let tags := ex.tags.getD []
  if ex.is_ambiguous || confidenceBelowThreshold ex.project_confidence then
    ("inbox_review",
      if tags.contains "needs_sorting" then tags else tags ++ ["needs_sorting"])
  else
    ("inbox", tags)

/-- The lookup `SELECT * FROM tasks WHERE id = ?` via `db.get`: the first
row with the given id. -/
def findTask (db : Storage) (id : Nat) : Option Task :=
  db.tasks.find? (fun t => t.id = id)

/-- The statement `UPDATE tasks SET status = ? WHERE id = ?`. -/
def setStatus (db : Storage) (id : Nat) (st : String) : Storage :=
  { db with tasks := db.tasks.map (fun t => if t.id = id then { t with status := st } else t) }

/-- Comparison used to model `ORDER BY shard_order` (SQLite sorts NULL
first; a NULL `shard_order` is modelled as 0, below every real
1-based order). -/
def shardOrderLe (a b : Task) : Prop :=
  a.shard_order.getD 0 ≤ b.shard_order.getD 0

instance : DecidableRel shardOrderLe := fun a b =>
  inferInstanceAs (Decidable (a.shard_order.getD 0 ≤ b.shard_order.getD 0))

/-- Model of `getShardsByParentId`: `SELECT * FROM tasks WHERE parent_task_id = ?
ORDER BY shard_order` (magicBreakdown lines 214-225). -/
def getShardsByParentId (db : Storage) (parentTaskId : Nat) : List Task :=
  List.insertionSort shardOrderLe
    (db.tasks.filter (fun t => t.parent_task_id = some parentTaskId))

/-- Model of `checkAndCompleteParent` (magicBreakdown lines 233-259): re-fetch the
shards of the parent; when there is at least one and all are complete,
set the parent status to complete and report `true`. -/
def checkAndCompleteParent (db : Storage) (parentTaskId : Nat) : Storage × Bool :=
  let shards := getShardsByParentId db parentTaskId
  if shards = [] then (db, false)
  else if shards.all (fun s => s.status = "complete") then
    (setStatus db parentTaskId "complete", true)
  else (db, false)

/-- Body of the JSON object answered by `PATCH /api/tasks/:id`. -/
structure UpdateResult where
  parentCompleted : Bool
  parentTaskId : Option Nat
deriving Repr, DecidableEq

/-- The status-only use of `PATCH /api/tasks/:id` (server.js lines
230-301), the `update_task_status` entry point: fetch the task (404 when
absent), run the UPDATE, and when the new status is `complete` and the
task has a parent, run `checkAndCompleteParent` on that parent. -/
def updateTaskStatus (db : Storage) (id : Nat) (st : String) :
    Except String (Storage × UpdateResult) :=
  match findTask db id with
  | none => .error "Task not found"
  | some task =>
    let db1 := setStatus db id st
    if st = "complete" then
      match task.parent_task_id with
      | some pid =>
        let r := checkAndCompleteParent db1 pid
        .ok (r.1, ⟨r.2, if r.2 then some pid else none⟩)
      | none => .ok (db1, ⟨false, none⟩)
    else .ok (db1, ⟨false, none⟩)

/-- One shard descriptor as parsed from the decomposition LLM response;
unvalidated, so every field may be absent except the title used by the
insert (a missing title would insert NULL; the claims only concern
descriptor lists, whose titles we model as present). -/
structure AdapterShard where
  title : String
  description : Option String := none
  gravity : Option String := none
  estimated_minutes : Option Nat := none
deriving Repr, DecidableEq

/-- The JSON object parsed from the decomposition LLM response
(`generateBreakdown`); the `shards` field may be absent. -/
structure BreakdownLLMResult where
  shards : Option (List AdapterShard) := none
  reasoning : Option String := none
deriving Repr, DecidableEq

/-- The row inserted by `createShardTasks` for the shard at 0-based
index `i` (magicBreakdown lines 112-152): content = shard title, status
fixed to inbox, gravity defaulting to Low, project inherited from the
parent, the fixed `shard` tag, and 1-based shard order. -/
def mkShardTask (newId : Nat) (shard : AdapterShard) (parentTask : Task)
    (parentTaskId : Nat) (i : Nat) (now : String) : Task :=
  { id := newId
    content := shard.title
    title := some shard.title
    description := some (shard.description.getD "")
    status := "inbox"
    gravity_tag := some (shard.gravity.getD "Low")
    project_id := parentTask.project_id
    tags := ["shard"]
    parent_task_id := some parentTaskId
    shard_order := some (i + 1)
    created_at := now }

/-- The insert loop of `createShardTasks`, threading the store and the
0-based loop index. -/
def createShardTasksAux (parentTaskId : Nat) (parentTask : Task) (now : String) :
    Storage → Nat → List AdapterShard → Storage × List Task
  | db, _, [] => (db, [])
  | db, i, shard :: rest =>
    let t := mkShardTask db.nextId shard parentTask parentTaskId i now
    let db1 : Storage := { tasks := db.tasks ++ [t], nextId := db.nextId + 1 }
    let r := createShardTasksAux parentTaskId parentTask now db1 (i + 1) rest
    (r.1, t :: r.2)

/-- Model of `createShardTasks` (magicBreakdown lines 108-158). -/
def createShardTasks (db : Storage) (parentTaskId : Nat) (shards : List AdapterShard)
    (parentTask : Task) (now : String) : Storage × List Task :=
  createShardTasksAux parentTaskId parentTask now db 0 shards

/-- JS `a || b` on strings: empty string is falsy. -/
def jsOrString (a b : String) : String :=
  if a = "" then b else a

/-- Body of the JSON response of `POST /api/tasks/:id/breakdown`. -/
structure BreakdownResponse where
  success : Bool
  shards : List Task
  reasoning : Option String := none
  message : Option String := none
  parentTask : Option (Nat × String) := none
deriving Repr, DecidableEq

/-- Model of `breakdownTask` (magicBreakdown lines 167-206) after the external
calls resolved: `llm` is the parsed decomposition response.  A missing
or empty shard list is the hard EmptyDecomposition failure (`LLM did
not return any shards`); otherwise the shards are persisted in order. -/
def breakdownTask (db : Storage) (parentTask : Task) (llm : BreakdownLLMResult)
    (now : String) : Except String (Storage × BreakdownResponse) :=
  match llm.shards with
  | none => .error "LLM did not return any shards"
  | some [] => .error "LLM did not return any shards"
  | some (shard :: rest) =>
    let r := createShardTasks db parentTask.id (shard :: rest) parentTask now
    .ok (r.1,
      { success := true
        shards := r.2
        reasoning := llm.reasoning
        parentTask := some (parentTask.id,
          jsOrString (parentTask.title.getD "") parentTask.content) })

/-- Response of the idempotency-guard path of the breakdown route:
the existing shards, unchanged, with the already-decomposed message. -/
def alreadyDecomposedResponse (db : Storage) (id : Nat) (parentTask : Task) : BreakdownResponse :=
  { success := true
    shards := getShardsByParentId db id
    message := some "Task already decomposed"
    parentTask := some (parentTask.id, parentTask.title.getD "") }

/-- Model of `POST /api/tasks/:id/breakdown` (server.js lines 369-418), the
`submit_breakdown` entry point.  `llm` is what the decomposition
adapter would answer were it consulted: on the idempotency-guard path
the result provably does not depend on it. -/
def submitBreakdown (db : Storage) (id : Nat)
    (llm : Except String BreakdownLLMResult) (now : String) :
    Except String (Storage × BreakdownResponse) :=
  match findTask db id with
  | none => .error "Task not found"
  | some parentTask =>
    if getShardsByParentId db id = [] then
      match llm with
      | .error e => .error e
      | .ok r => breakdownTask db parentTask r now
    else
      .ok (db, alreadyDecomposedResponse db id parentTask)

/-- Char-list prefix test, the model of JS `String.prototype.startsWith`
(structurally recursive so that concrete instances evaluate). -/
def listStartsWith : List Char → List Char → Bool
  | _, [] => true
  | [], _ :: _ => false
  | c :: cs, p :: ps => c = p && listStartsWith cs ps

/-- JS `s.startsWith(pre)`. -/
def strStartsWith (s pre : String) : Bool :=
  listStartsWith s.toList pre.toList

/-- JS `s.endsWith(suf)`. -/
def strEndsWith (s suf : String) : Bool :=
  listStartsWith s.toList.reverse suf.toList.reverse

/-- Remove the first `n` characters. -/
def strDrop (s : String) (n : Nat) : String :=
  String.mk (s.toList.drop n)

/-- Remove the last `n` characters. -/
def strDropRight (s : String) (n : Nat) : String :=
  String.mk ((s.toList.reverse.drop n).reverse)

/-- JS `s.trim()`: strip leading and trailing whitespace. -/
def jsTrim (s : String) : String :=
  String.mk
    (((s.toList.dropWhile Char.isWhitespace).reverse.dropWhile Char.isWhitespace).reverse)

/-- Model of `transcribeAudio` (server.js lines 796-834) with the provider
modelled as an oracle: `keySet` is whether `DEEPGRAM_API_KEY` is
configured, `resp` is the provider outcome (`.error` a non-ok HTTP
response, `.ok t?` a successful response whose extracted transcript
field is `t?`).  A successful response with a missing, empty or
whitespace-only transcript is the UNINTELLIGIBLE_AUDIO failure. -/
def transcribeAudio (keySet : Bool) (resp : Except String (Option String)) :
    Except String String :=
  if !keySet then .error "DEEPGRAM_API_KEY is not configured"
  else
    match resp with
    | .error e => .error ("Deepgram transcription failed: " ++ e)
    | .ok t? =>
      match t? with
      | none => .error "UNINTELLIGIBLE_AUDIO"
      | some t => if jsTrim t = "" then .error "UNINTELLIGIBLE_AUDIO" else .ok t

/-- The result object `processAudioEntry` resolves with. -/
structure CaptureResult where
  success : Bool
  task : Option Task := none
  transcript : Option String := none
  error : Option String := none
  is_unintelligible : Bool := false
deriving Repr, DecidableEq

/-- The user-facing message of the unintelligible-audio result. -/
def unintelligibleMessage : String :=
  "Could not understand the audio. Please try speaking more clearly."

/-- One run of the capture pipeline: the progress stages emitted for
the request, the settled outcome (`.error` models the rethrown
exception of the generic failure path), and the resulting store. -/
structure PipelineRun where
  events : List String
  outcome : Except String CaptureResult
  db : Storage
deriving Repr

/-- The row inserted at the saving step of `processAudioEntry`
(server.js lines 1078-1114). -/
def mkCaptureTask (id : Nat) (transcript : String) (ex : ExtractedTask)
    (now : String) : Task :=
  { id := id
    content := transcript
    title := ex.task_title
    description := ex.task_description
    status := (statusBranch ex).1
    gravity_tag := ex.gravity
    project_id := ex.project_id
    due_date := ex.due_date
    tags := (statusBranch ex).2
    confidence_score := ex.project_confidence
    is_ambiguous := ex.is_ambiguous
    created_at := now }

/-- The `try` block of `processAudioEntry` (server.js lines 1032-1127):
the stages emitted so far, paired with either the thrown error or the
success result and the updated store.  The oracles: `ctxO` the sqlite
outcome of the context reads, `keySet`/`resp` the transcription
provider, `corrO` the sqlite outcome of the corrections read,
`extractO` the extraction adapter outcome, `insertO` the sqlite
outcome of the final INSERT. -/
def captureAttempt (db : Storage) (ctxO : Except String Unit) (keySet : Bool)
    (resp : Except String (Option String)) (corrO : Except String Unit)
    (extractO : Except String ExtractedTask) (insertO : Except String Unit)
    (now : String) : List String × Except String (CaptureResult × Storage) :=
  match ctxO with
  | .error e => (["context_loading"], .error e)
  | .ok _ =>
    match transcribeAudio keySet resp with
    | .error e =>
      (["context_loading", "context_loaded", "transcription_start"], .error e)
    | .ok transcript =>
      match corrO with
      | .error e =>
        (["context_loading", "context_loaded", "transcription_start",
          "transcription_complete"], .error e)
      | .ok _ =>
        match extractO with
        | .error e =>
          (["context_loading", "context_loaded", "transcription_start",
            "transcription_complete", "processing_start"], .error e)
        | .ok ex =>
          match insertO with
          | .error e =>
            (["context_loading", "context_loaded", "transcription_start",
              "transcription_complete", "processing_start",
              "processing_complete", "saving"], .error e)
          | .ok _ =>
            let row := mkCaptureTask db.nextId transcript ex now
            (["context_loading", "context_loaded", "transcription_start",
              "transcription_complete", "processing_start",
              "processing_complete", "saving"],
             .ok ({ success := true, task := some row, transcript := some transcript },
                  { tasks := db.tasks ++ [row], nextId := db.nextId + 1 }))

/-- Model of `processAudioEntry` (server.js lines 1029-1148) run with a progress
tracker: the `catch` block turns the UNINTELLIGIBLE_AUDIO throw into a
normally returned failure result after emitting the terminal error
event, emits the terminal error event and rethrows on every other
throw, and the success path emits the terminal complete event. -/
def processAudioEntry (db : Storage) (ctxO : Except String Unit) (keySet : Bool)
    (resp : Except String (Option String)) (corrO : Except String Unit)
    (extractO : Except String ExtractedTask) (insertO : Except String Unit)
    (now : String) : PipelineRun :=
  match captureAttempt db ctxO keySet resp corrO extractO insertO now with
  | (ev, .ok (res, db1)) => ⟨ev ++ ["complete"], .ok res, db1⟩
  | (ev, .error e) =>
    if e = "UNINTELLIGIBLE_AUDIO" then
      ⟨ev ++ ["error"],
       .ok { success := false, error := some unintelligibleMessage,
             is_unintelligible := true },
       db⟩
    else
      ⟨ev ++ ["error"], .error e, db⟩

/-- The replace of the opening-fence pattern of the LLM response
handlers (server.js line 1011, magicBreakdown line 90): the pattern
requires the three backticks to be followed by the letters jso, an
optional n and an optional newline, so a bare fence is left in
place. -/
def stripOpenFence (s : String) : String :=
  if strStartsWith s "```json\n" then strDrop s 8
  else if strStartsWith s "```json" then strDrop s 7
  else if strStartsWith s "```jso\n" then strDrop s 7
  else if strStartsWith s "```jso" then strDrop s 6
  else s

/-- The replace of the closing-fence pattern: a trailing fence with an
optional preceding newline is removed. -/
def stripCloseFence (s : String) : String :=
  if strEndsWith s "\n```" then strDropRight s 4
  else if strEndsWith s "```" then strDropRight s 3
  else s

/-- The fence handling both adapters apply to the LLM message content
before `JSON.parse` (server.js lines 1009-1012, magicBreakdown lines
88-91): trim, and when the trimmed content starts with a fence, apply
the two replaces. -/
def stripFences (content : String) : String :=
  let j := jsTrim content
  if strStartsWith j "```" then stripCloseFence (stripOpenFence j) else j

/-- Necessary condition for `JSON.parse` to succeed, used to model the
external parser: a JSON text begins (after whitespace) with an object,
array, string, number, or one of true/false/null. -/
def canBeJson (s : String) : Bool :=
  match (jsTrim s).toList.head? with
  | none => false
  | some c =>
    c = '\x7b' || c = '[' || c = '"' || c = '-' || c.isDigit ||
    c = 't' || c = 'f' || c = 'n'

/-- The response handling of `extractTaskWithLLM` (server.js lines
1001-1018) on the extracted message content: a missing or empty body is
the empty-response error; otherwise the fence-stripped content goes to
`JSON.parse`, and a content that cannot parse yields the malformed
error carrying the raw content.  `.ok` carries the string handed to
`JSON.parse` once it passes the necessary start-character condition. -/
def handleLLMContent (content : Option String) : Except String String :=
  match content with
  | none => .error "LLM returned empty response"
  | some c =>
    if c = "" then .error "LLM returned empty response"
    else
      let j := stripFences c
      if canBeJson j then .ok j
      else .error ("Failed to parse LLM response as JSON: " ++ c)

/-- One entry of the Progress Emitter registry (progressEmitter
constructor and mutators). -/
structure ReqEntry where
  status : String := "pending"
  result : Option String := none
  error : Option String := none
deriving Repr, DecidableEq

/-- The Progress Emitter singleton state: the requests registry, the
deletions scheduled through `setTimeout` as (request id, delay in
milliseconds) pairs, and the events emitted on the bus as (request id,
stage) pairs. -/
structure EmitterState where
  requests : List (String × ReqEntry) := []
  scheduledDeletions : List (String × Nat) := []
  emitted : List (String × String) := []
deriving Repr, DecidableEq

/-- Update the registry entry of a request id, when present. -/
def updateEntry (s : EmitterState) (requestId : String) (f : ReqEntry → ReqEntry) :
    EmitterState :=
  { s with requests :=
      s.requests.map (fun kv => if kv.1 = requestId then (kv.1, f kv.2) else kv) }

/-- Model of `ProgressEmitter.completeRequest` (progressEmitter lines 324-341):
record the result, emit the terminal complete event, and schedule the
registry entry for deletion after 5 minutes (300000 ms). -/
def completeRequest (s : EmitterState) (requestId : String) (result : String) :
    EmitterState :=
  let s1 := updateEntry s requestId
    (fun e => { e with status := "complete", result := some result })
  { s1 with
    emitted := s1.emitted ++ [(requestId, "complete")]
    scheduledDeletions := s1.scheduledDeletions ++ [(requestId, 5 * 60 * 1000)] }

/-- Model of `ProgressEmitter.errorRequest` (progressEmitter lines 346-359):
record the error and emit the terminal error event.  No deletion is
scheduled. -/
def errorRequest (s : EmitterState) (requestId : String) (err : String) :
    EmitterState :=
  let s1 := updateEntry s requestId
    (fun e => { e with status := "error", error := some err })
  { s1 with emitted := s1.emitted ++ [(requestId, "error")] }

/-- A terminal progress stage. -/
def isTerminalStage (stage : String) : Bool :=
  stage = "complete" || stage = "error"

/-- Condition of the parent-completion invariant, stated on the raw
store: every task whose `parent_task_id` is the given parent has
status complete. -/
def shardsAllComplete (db : Storage) (parentTaskId : Nat) : Bool :=
  (db.tasks.filter (fun t => t.parent_task_id = some parentTaskId)).all
    (fun s => s.status = "complete")

/-- Closed form of the rows inserted by the `createShardTasks` loop:
ids from `nid`, 0-based loop counter from `i`. -/
def shardRows (parentTaskId : Nat) (parentTask : Task) (now : String) :
    Nat → Nat → List AdapterShard → List Task
  | _, _, [] => []
  | nid, i, shard :: rest =>
    mkShardTask nid shard parentTask parentTaskId i now ::
      shardRows parentTaskId parentTask now (nid + 1) (i + 1) rest

/-- Example parent task used by concrete witnesses. -/
def sampleParent : Task :=
  { id := 1, content := "plan trip", status := "inbox" }

/-- Example shard of `sampleParent`, still open. -/
def sampleShard1 : Task :=
  { id := 2, content := "book flights", status := "inbox",
    parent_task_id := some 1, shard_order := some 1 }

/-- Example shard of `sampleParent`, already complete. -/
def sampleShard2 : Task :=
  { id := 3, content := "pack bags", status := "complete",
    parent_task_id := some 1, shard_order := some 2 }

/-- Example store holding the parent and its two shards. -/
def sampleDb : Storage :=
  { tasks := [sampleParent, sampleShard1, sampleShard2], nextId := 4 }

/-- Example store holding only the (undecomposed) parent. -/
def sampleFreshDb : Storage :=
  { tasks := [sampleParent], nextId := 2 }

/-- Example decomposition adapter result with two shards. -/
def sampleLLM : BreakdownLLMResult :=
  { shards := some [{ title := "book flights" }, { title := "pack bags", gravity := some "High" }]
    reasoning := some "two chunks" }

/-- The re-fetch is the filter up to ordering. -/
theorem getShardsByParentId_perm (db : Storage) (pid : Nat) :
    List.Perm (getShardsByParentId db pid)
      (db.tasks.filter (fun t => t.parent_task_id = some pid)) :=
  List.perm_insertionSort _ _

/-- `all` over the ordered re-fetch agrees with `all` over the raw filter. -/
theorem getShardsByParentId_all_eq (db : Storage) (pid : Nat) (p : Task → Bool) :
    (getShardsByParentId db pid).all p =
      (db.tasks.filter (fun t => t.parent_task_id = some pid)).all p := by
  rw [Bool.eq_iff_iff, List.all_eq_true, List.all_eq_true]
  constructor
  · intro h x hx
    exact h x ((getShardsByParentId_perm db pid).mem_iff.mpr hx)
  · intro h x hx
    exact h x ((getShardsByParentId_perm db pid).mem_iff.mp hx)

/-- The ordered re-fetch is empty exactly when the raw filter is. -/
theorem getShardsByParentId_eq_nil_iff (db : Storage) (pid : Nat) :
    getShardsByParentId db pid = [] ↔
      db.tasks.filter (fun t => t.parent_task_id = some pid) = [] := by
  constructor
  · intro h
    have hp := getShardsByParentId_perm db pid
    rw [h] at hp
    exact hp.symm.eq_nil
  · intro h
    have hp := getShardsByParentId_perm db pid
    rw [h] at hp
    exact hp.eq_nil

/-- C2: completing a shard re-checks the parent inside the same call:
the reported `parentCompleted` is exactly whether every task sharing
the parent id (the just-updated shard included) is complete; when so,
every row with the parent id ends complete, and when not, the store
past the shard update is left untouched. -/
theorem updateTaskStatus_parent_completion (db : Storage) (id pid : Nat) (task : Task)
    (hfind : findTask db id = some task) (hpar : task.parent_task_id = some pid) :
    ∃ db2 res,
      updateTaskStatus db id "complete" = .ok (db2, res) ∧
      res.parentCompleted = shardsAllComplete (setStatus db id "complete") pid ∧
      res.parentTaskId = (if res.parentCompleted then some pid else none) ∧
      (res.parentCompleted = true →
        ∀ t ∈ db2.tasks, t.id = pid → t.status = "complete") ∧
      (res.parentCompleted = false → db2 = setStatus db id "complete") := by
  have htask : task ∈ db.tasks := List.mem_of_find?_eq_some hfind
  have hid : task.id = id := by
    have h := List.find?_some hfind
    simpa using h
  have hmem1 : ({ task with status := "complete" } : Task) ∈ (setStatus db id "complete").tasks := by
    show _ ∈ db.tasks.map (fun t => if t.id = id then { t with status := "complete" } else t)
    have h1 : (fun t => if t.id = id then { t with status := "complete" } else t) task =
        { task with status := "complete" } := by
      show (if task.id = id then ({ task with status := "complete" }) else task) =
        { task with status := "complete" }
      rw [if_pos hid]
    exact h1 ▸ List.mem_map_of_mem _ htask
  have hfil : ({ task with status := "complete" } : Task) ∈
      (setStatus db id "complete").tasks.filter (fun t => t.parent_task_id = some pid) := by
    refine List.mem_filter.mpr ⟨hmem1, ?_⟩
    simp [hpar]
  have hne : getShardsByParentId (setStatus db id "complete") pid ≠ [] := by
    intro h
    have hnil := (getShardsByParentId_eq_nil_iff (setStatus db id "complete") pid).mp h
    rw [hnil] at hfil
    exact List.not_mem_nil _ hfil
  have hall := getShardsByParentId_all_eq (setStatus db id "complete") pid
    (fun s => s.status = "complete")
  simp only [updateTaskStatus, hfind, hpar]
  rw [if_pos trivial]
  by_cases hA : (getShardsByParentId (setStatus db id "complete") pid).all
      (fun s => s.status = "complete") = true
  · have hCC : checkAndCompleteParent (setStatus db id "complete") pid =
        (setStatus (setStatus db id "complete") pid "complete", true) := by
      simp only [checkAndCompleteParent]
      rw [if_neg hne, if_pos hA]
    rw [hCC]
    refine ⟨_, _, rfl, ?_, ?_, ?_, ?_⟩
    · show true = shardsAllComplete (setStatus db id "complete") pid
      unfold shardsAllComplete
      rw [← hall, hA]
    · rfl
    · intro _ t ht hid2
      have ht' : t ∈ (setStatus db id "complete").tasks.map
          (fun t => if t.id = pid then { t with status := "complete" } else t) := ht
      obtain ⟨t0, _, rfl⟩ := List.mem_map.mp ht'
      by_cases h0 : t0.id = pid
      · rw [if_pos h0]
      · rw [if_neg h0] at hid2 ⊢
        exact absurd hid2 h0
    · intro h
      exact Bool.noConfusion h
  · have hCC : checkAndCompleteParent (setStatus db id "complete") pid =
        (setStatus db id "complete", false) := by
      simp only [checkAndCompleteParent]
      rw [if_neg hne, if_neg hA]
    rw [hCC]
    refine ⟨_, _, rfl, ?_, ?_, ?_, fun _ => rfl⟩
    · show false = shardsAllComplete (setStatus db id "complete") pid
      unfold shardsAllComplete
      rw [← hall, Bool.eq_false_iff.mpr hA]
    · rfl
    · intro h
      exact Bool.noConfusion h

/-- C2 witness: completing the last open shard of the sample parent
reports the parent as completed. -/
theorem updateTaskStatus_parent_completion_witness :
    ∃ db2 res, updateTaskStatus sampleDb 2 "complete" = .ok (db2, res) ∧
      res.parentCompleted = true ∧
      (∀ t ∈ db2.tasks, t.id = 1 → t.status = "complete") := by
  obtain ⟨db2, res, heq, hpc, hpt, hcomp, _⟩ :=
    updateTaskStatus_parent_completion sampleDb 2 1 sampleShard1 (by decide) (by decide)
  have hval : res.parentCompleted = true := by
    rw [hpc]
    decide
  exact ⟨db2, res, heq, hval, hcomp hval⟩

/-- C1 counterexample: a run whose extraction is ambiguous and whose
extracted tags already list `needs_sorting` twice persists the tag
twice, not exactly once — the guarded push is skipped, but existing
duplicates are kept. -/
theorem statusBranch_duplicate_needs_sorting :
    (statusBranch { is_ambiguous := true, tags := some ["needs_sorting", "needs_sorting"] }).1 = "inbox_review" ∧
    (statusBranch { is_ambiguous := true, tags := some ["needs_sorting", "needs_sorting"] }).2.count "needs_sorting" = 2 := by
  decide

/-- C1 (amended): when the extraction is ambiguous or its confidence is
below 0.6 the status is inbox_review and `needs_sorting` is in the
tags, appearing exactly once whenever the extracted tags contained it
at most once (the append is skipped when it is already present);
when the extraction is unambiguous with confidence at least 0.6 the
status is inbox and the tags are the extracted tags unchanged. -/
theorem statusBranch_spec (ex : ExtractedTask) :
    ((ex.is_ambiguous = true ∨ ∃ c, ex.project_confidence = some c ∧ c < 3/5) →
      (statusBranch ex).1 = "inbox_review" ∧
      "needs_sorting" ∈ (statusBranch ex).2 ∧
      ((ex.tags.getD []).count "needs_sorting" ≤ 1 →
        (statusBranch ex).2.count "needs_sorting" = 1)) ∧
    ((ex.is_ambiguous = false ∧ ∃ c, ex.project_confidence = some c ∧ 3/5 ≤ c) →
      (statusBranch ex).1 = "inbox" ∧ (statusBranch ex).2 = ex.tags.getD []) := by
  constructor
  · intro h
    have hcond : (ex.is_ambiguous || confidenceBelowThreshold ex.project_confidence) = true := by
      rcases h with hamb | ⟨c, hceq, hlt⟩
      · rw [hamb, Bool.true_or]
      · rw [hceq]
        have hx : confidenceBelowThreshold (some c) = true := by
          simp [confidenceBelowThreshold, hlt]
        rw [hx, Bool.or_true]
    have hbr : statusBranch ex =
        ("inbox_review",
          if (ex.tags.getD []).contains "needs_sorting" then ex.tags.getD []
          else ex.tags.getD [] ++ ["needs_sorting"]) := by
      unfold statusBranch
      rw [hcond]
      simp
    by_cases hct : (ex.tags.getD []).contains "needs_sorting" = true
    · have hmem : "needs_sorting" ∈ ex.tags.getD [] := by simpa using hct
      have htags : (statusBranch ex).2 = ex.tags.getD [] := by
        rw [hbr, if_pos hct]
      refine ⟨by rw [hbr], ?_, ?_⟩
      · rw [htags]
        exact hmem
      · intro hle
        have h1 : 1 ≤ (ex.tags.getD []).count "needs_sorting" :=
          List.one_le_count_iff.mpr hmem
        rw [htags]
        omega
    · have hmem : "needs_sorting" ∉ ex.tags.getD [] := by
        intro hm
        exact hct (by simpa using hm)
      have htags : (statusBranch ex).2 = ex.tags.getD [] ++ ["needs_sorting"] := by
        rw [hbr, if_neg hct]
      refine ⟨by rw [hbr], ?_, ?_⟩
      · rw [htags]
        exact List.mem_append_right _ (List.mem_singleton.mpr rfl)
      · intro _
        rw [htags, List.count_append, List.count_eq_zero.mpr hmem]
        rfl
  · rintro ⟨hamb, c, hceq, hge⟩
    have hcond : (ex.is_ambiguous || confidenceBelowThreshold ex.project_confidence) = false := by
      rw [hamb, hceq, Bool.false_or]
      simp [confidenceBelowThreshold, not_lt.mpr hge]
    have hbr : statusBranch ex = ("inbox", ex.tags.getD []) := by
      unfold statusBranch
      rw [hcond]
      simp
    exact ⟨by rw [hbr], by rw [hbr]⟩

/-- C1 witness: concrete runs through both branches of the amended
status-branch theorem. -/
theorem statusBranch_spec_witness :
    (statusBranch { is_ambiguous := true, tags := some ["a"] }).1 = "inbox_review" ∧
    (statusBranch { is_ambiguous := true, tags := some ["a"] }).2.count "needs_sorting" = 1 ∧
    (statusBranch { project_confidence := some 1, tags := some ["a"] }).1 = "inbox" ∧
    (statusBranch { project_confidence := some 1, tags := some ["a"] }).2 = ["a"] := by
  have h1 := (statusBranch_spec { is_ambiguous := true, tags := some ["a"] }).1 (Or.inl rfl)
  have h2 := (statusBranch_spec { project_confidence := some 1, tags := some ["a"] }).2
    ⟨rfl, 1, rfl, by norm_num⟩
  exact ⟨h1.1, h1.2.2 (by decide), h2.1, h2.2⟩

/-- C10: when the ambiguity flag is falsy and the confidence field is
absent, the JS comparison `undefined < 0.6` is false, so the run takes
the inbox branch with the extracted tags unchanged — a missing
confidence bypasses the inbox_review safety net. -/
theorem statusBranch_missing_confidence (ex : ExtractedTask)
    (hamb : ex.is_ambiguous = false) (hconf : ex.project_confidence = none) :
    confidenceBelowThreshold ex.project_confidence = false ∧
    (statusBranch ex).1 = "inbox" ∧
    (statusBranch ex).2 = ex.tags.getD [] ∧
    ("needs_sorting" ∉ ex.tags.getD [] → "needs_sorting" ∉ (statusBranch ex).2) := by
  have hc : confidenceBelowThreshold ex.project_confidence = false := by
    rw [hconf]; rfl
  have hcond : (ex.is_ambiguous || confidenceBelowThreshold ex.project_confidence) = false := by
    rw [hamb, hc]; rfl
  refine ⟨hc, by simp [statusBranch, hcond], by simp [statusBranch, hcond], ?_⟩
  intro hn
  simp [statusBranch, hcond]
  exact hn

/-- C10 witness: a concrete extraction with no confidence score and a
falsy ambiguity flag lands in inbox without the needs_sorting tag. -/
theorem statusBranch_missing_confidence_witness :
    (statusBranch { tags := some ["groceries"] }).1 = "inbox" ∧
    "needs_sorting" ∉ (statusBranch { tags := some ["groceries"] }).2 := by
  have h := statusBranch_missing_confidence { tags := some ["groceries"] } rfl rfl
  exact ⟨h.2.1, h.2.2.2 (by decide)⟩

/-- C9 counterexample: on a registry holding one pending request, the
terminal error event is emitted but no deletion of the entry is
scheduled — only `completeRequest` installs the 5-minute cleanup
timer. -/
theorem errorRequest_schedules_no_deletion :
    (errorRequest { requests := [("r", {})] } "r" "boom").emitted = [("r", "error")] ∧
    (errorRequest { requests := [("r", {})] } "r" "boom").scheduledDeletions = [] ∧
    (errorRequest { requests := [("r", {})] } "r" "boom").requests =
      [("r", { status := "error", error := some "boom" })] := by
  decide

/-- C9 (amended): emitting the terminal complete event schedules the
registry entry for removal after the fixed 5-minute (300000 ms) grace
period, but emitting the terminal error event schedules nothing: an
errored request stays registered until the process exits. -/
theorem terminal_event_cleanup (s : EmitterState) (requestId result err : String) :
    (completeRequest s requestId result).scheduledDeletions =
      s.scheduledDeletions ++ [(requestId, 300000)] ∧
    (completeRequest s requestId result).emitted = s.emitted ++ [(requestId, "complete")] ∧
    (errorRequest s requestId err).scheduledDeletions = s.scheduledDeletions ∧
    (errorRequest s requestId err).emitted = s.emitted ++ [(requestId, "error")] :=
  ⟨rfl, rfl, rfl, rfl⟩

/-- C7: the code intends to strip markdown fences from the LLM reply
(it guards on the content starting with a fence and its comment says
so), but the opening-fence pattern demands the letters `jso` right
after the backticks, so a bare fence is stripped only at the closing
side: bare-fenced valid JSON keeps its opening fence, cannot parse,
and raises the malformed-response error carrying the raw content,
while a ```json fence is stripped as intended. -/
theorem stripFences_bare_fence_kept :
    stripFences "```json\n\x7b\x7d\n```" = "\x7b\x7d" ∧
    stripFences "```\n\x7b\x7d\n```" = "```\n\x7b\x7d" ∧
    canBeJson (stripFences "```\n\x7b\x7d\n```") = false ∧
    handleLLMContent (some "```\n\x7b\x7d\n```") =
      .error "Failed to parse LLM response as JSON: ```\n\x7b\x7d\n```" := by
  refine ⟨by decide, by decide, by decide, rfl⟩

/-- Closed form of the `createShardTasks` insert loop: it appends the
`shardRows` block and advances the id counter by the row count. -/
theorem createShardTasksAux_eq (parentTaskId : Nat) (parentTask : Task) (now : String)
    (shards : List AdapterShard) : ∀ (db : Storage) (i : Nat),
    createShardTasksAux parentTaskId parentTask now db i shards =
      ({ tasks := db.tasks ++ shardRows parentTaskId parentTask now db.nextId i shards,
         nextId := db.nextId + shards.length },
       shardRows parentTaskId parentTask now db.nextId i shards) := by
  induction shards with
  | nil =>
    intro db i
    simp [createShardTasksAux, shardRows]
  | cons s rest ih =>
    intro db i
    simp only [createShardTasksAux, shardRows, ih, List.length_cons]
    refine Prod.ext ?_ rfl
    simp only [Storage.mk.injEq]
    constructor
    · simp [List.append_assoc]
    · omega

/-- Row count of a `shardRows` block. -/
theorem shardRows_length (parentTaskId : Nat) (parentTask : Task) (now : String) :
    ∀ (shards : List AdapterShard) (nid i : Nat),
    (shardRows parentTaskId parentTask now nid i shards).length = shards.length := by
  intro shards
  induction shards with
  | nil => intro nid i; rfl
  | cons s rest ih => intro nid i; simp [shardRows, ih]

/-- Element characterization of a `shardRows` block. -/
theorem shardRows_getElem? (parentTaskId : Nat) (parentTask : Task) (now : String) :
    ∀ (shards : List AdapterShard) (nid i k : Nat),
    (shardRows parentTaskId parentTask now nid i shards)[k]? =
      (shards[k]?).map (fun s => mkShardTask (nid + k) s parentTask parentTaskId (i + k) now) := by
  intro shards
  induction shards with
  | nil => intro nid i k; simp [shardRows]
  | cons s rest ih =>
    intro nid i k
    cases k with
    | zero => simp [shardRows]
    | succ k =>
      simp only [shardRows, List.getElem?_cons_succ, ih]
      have h1 : nid + 1 + k = nid + (k + 1) := by omega
      have h2 : i + 1 + k = i + (k + 1) := by omega
      rw [h1, h2]

/-- Every row of a `shardRows` block carries the parent id. -/
theorem shardRows_parent (parentTaskId : Nat) (parentTask : Task) (now : String) :
    ∀ (shards : List AdapterShard) (nid i : Nat),
    ∀ t ∈ shardRows parentTaskId parentTask now nid i shards,
      t.parent_task_id = some parentTaskId := by
  intro shards
  induction shards with
  | nil => intro nid i t ht; cases ht
  | cons s rest ih =>
    intro nid i t ht
    rcases List.mem_cons.mp ht with h | h
    · rw [h]; rfl
    · exact ih (nid + 1) (i + 1) t h

/-- Every row of a `shardRows` block has shard order at least `i + 1`. -/
theorem shardRows_order_lb (parentTaskId : Nat) (parentTask : Task) (now : String) :
    ∀ (shards : List AdapterShard) (nid i : Nat),
    ∀ t ∈ shardRows parentTaskId parentTask now nid i shards,
      i + 1 ≤ t.shard_order.getD 0 := by
  intro shards
  induction shards with
  | nil => intro nid i t ht; cases ht
  | cons s rest ih =>
    intro nid i t ht
    rcases List.mem_cons.mp ht with h | h
    · rw [h]; simp [mkShardTask]
    · have := ih (nid + 1) (i + 1) t h
      omega

/-- A `shardRows` block is sorted by shard order. -/
theorem shardRows_sorted (parentTaskId : Nat) (parentTask : Task) (now : String) :
    ∀ (shards : List AdapterShard) (nid i : Nat),
    List.Sorted shardOrderLe (shardRows parentTaskId parentTask now nid i shards) := by
  intro shards
  induction shards with
  | nil => intro nid i; exact List.sorted_nil
  | cons s rest ih =>
    intro nid i
    refine List.sorted_cons.mpr ⟨?_, ih (nid + 1) (i + 1)⟩
    intro b hb
    have hlb := shardRows_order_lb parentTaskId parentTask now rest (nid + 1) (i + 1) b hb
    show (mkShardTask nid s parentTask parentTaskId i now).shard_order.getD 0 ≤
      b.shard_order.getD 0
    simp only [mkShardTask, Option.getD_some]
    omega

/-- C4: on an undecomposed parent, a decomposition result with no
shards fails hard with the EmptyDecomposition error and persists
nothing; a result with n shards persists exactly n new rows, appended
in adapter order, the k-th (0-based) having content the shard title,
status inbox, gravity defaulting to Low, the project inherited
verbatim from the parent, exactly the `shard` tag, the parent id, and
1-based shard order k + 1. -/
theorem breakdownTask_spec (db : Storage) (parent : Task) (llm : BreakdownLLMResult)
    (now : String) :
    ((llm.shards = none ∨ llm.shards = some []) →
      breakdownTask db parent llm now = .error "LLM did not return any shards") ∧
    (∀ shards, llm.shards = some shards → shards ≠ [] →
      ∃ db2 resp, breakdownTask db parent llm now = .ok (db2, resp) ∧
        db2.tasks = db.tasks ++ resp.shards ∧
        db2.nextId = db.nextId + shards.length ∧
        resp.shards.length = shards.length ∧
        resp.success = true ∧
        resp.reasoning = llm.reasoning ∧
        (∀ k, k < shards.length →
          ∃ s row, shards[k]? = some s ∧ resp.shards[k]? = some row ∧
            row.content = s.title ∧
            row.status = "inbox" ∧
            row.gravity_tag = some (s.gravity.getD "Low") ∧
            row.project_id = parent.project_id ∧
            row.tags = ["shard"] ∧
            row.parent_task_id = some parent.id ∧
            row.shard_order = some (k + 1))) := by
  constructor
  · intro h
    rcases h with h | h <;> simp [breakdownTask, h]
  · intro shards hsh hne
    rcases shards with _ | ⟨s, rest⟩
    · exact absurd rfl hne
    simp only [breakdownTask, hsh, createShardTasks]
    rw [createShardTasksAux_eq]
    refine ⟨_, _, rfl, rfl, ?_, ?_, rfl, rfl, ?_⟩
    · simp [shardRows_length]
    · exact shardRows_length parent.id parent now (s :: rest) db.nextId 0
    · intro k hk
      have hk2 : k < (s :: rest).length := hk
      obtain ⟨sk, hsk⟩ : ∃ sk, (s :: rest)[k]? = some sk :=
        ⟨(s :: rest)[k], List.getElem?_eq_getElem hk2⟩
      refine ⟨sk, mkShardTask (db.nextId + k) sk parent parent.id (0 + k) now, hsk, ?_, ?_⟩
      · rw [shardRows_getElem?, hsk]
        rfl
      · refine ⟨rfl, rfl, rfl, rfl, rfl, rfl, ?_⟩
        show some (0 + k + 1) = some (k + 1)
        rw [Nat.zero_add]

/-- C4 witness: decomposing the sample parent with the two-shard
adapter result persists two rows in order, and an empty shard list
fails with the EmptyDecomposition error. -/
theorem breakdownTask_spec_witness :
    breakdownTask sampleFreshDb sampleParent { shards := some [] } "t0" =
      .error "LLM did not return any shards" ∧
    ∃ db2 resp, breakdownTask sampleFreshDb sampleParent sampleLLM "t0" = .ok (db2, resp) ∧
      resp.shards.length = 2 ∧
      (∃ s row, (sampleLLM.shards.getD [])[1]? = some s ∧ resp.shards[1]? = some row ∧
        row.content = s.title ∧ row.shard_order = some 2) := by
  constructor
  · exact (breakdownTask_spec sampleFreshDb sampleParent { shards := some [] } "t0").1
      (Or.inr rfl)
  · obtain ⟨db2, resp, heq, _, _, hlen, _, _, hrows⟩ :=
      (breakdownTask_spec sampleFreshDb sampleParent sampleLLM "t0").2
        [{ title := "book flights" }, { title := "pack bags", gravity := some "High" }]
        rfl (by simp)
    obtain ⟨s, row, hs, hrow, hcontent, _, _, _, _, _, horder⟩ := hrows 1 (by simp)
    exact ⟨db2, resp, heq, by rw [hlen]; rfl, s, row, hs, hrow, hcontent, horder⟩

/-- C3: when any task with the given parent id already exists, the
breakdown call answers the existing shards with the already-decomposed
message, leaves the store untouched, and its answer does not depend on
the decomposition adapter; consequently a second breakdown call right
after a fresh decomposition returns the same shard list and inserts
nothing. -/
theorem submitBreakdown_idempotent (db : Storage) (pid : Nat) (task : Task)
    (r : BreakdownLLMResult) (llm2 : Except String BreakdownLLMResult) (now now2 : String)
    (hfind : findTask db pid = some task) :
    (db.tasks.filter (fun t => t.parent_task_id = some pid) ≠ [] →
      ∀ llm now1, submitBreakdown db pid llm now1 =
        .ok (db, alreadyDecomposedResponse db pid task)) ∧
    (∀ s rest, r.shards = some (s :: rest) →
      db.tasks.filter (fun t => t.parent_task_id = some pid) = [] →
      ∃ db1 resp1, submitBreakdown db pid (.ok r) now = .ok (db1, resp1) ∧
        db1.tasks = db.tasks ++ resp1.shards ∧
        ∃ resp2, submitBreakdown db1 pid llm2 now2 = .ok (db1, resp2) ∧
          resp2.shards = resp1.shards ∧
          resp2.message = some "Task already decomposed") := by
  have hid : task.id = pid := by
    have h := List.find?_some hfind
    simpa using h
  subst hid
  constructor
  · intro hne llm now1
    have hno : ¬getShardsByParentId db task.id = [] := by
      rw [getShardsByParentId_eq_nil_iff]
      exact hne
    simp only [submitBreakdown, hfind]
    rw [if_neg hno]
  · intro s rest hr hfil0
    have hemp : getShardsByParentId db task.id = [] :=
      (getShardsByParentId_eq_nil_iff db task.id).mpr hfil0
    simp only [submitBreakdown, hfind]
    rw [if_pos hemp]
    simp only [breakdownTask, hr, createShardTasks]
    rw [createShardTasksAux_eq]
    refine ⟨_, _, rfl, rfl, ?_⟩
    have hfind2 : findTask
        { tasks := db.tasks ++ shardRows task.id task now db.nextId 0 (s :: rest),
          nextId := db.nextId + (s :: rest).length } task.id = some task := by
      show ((db.tasks ++ shardRows task.id task now db.nextId 0 (s :: rest)).find?
        fun t => t.id = task.id) = some task
      rw [List.find?_append]
      simp only [findTask] at hfind
      rw [hfind]
      rfl
    have hfil1 : (db.tasks ++ shardRows task.id task now db.nextId 0 (s :: rest)).filter
        (fun t => t.parent_task_id = some task.id) =
        shardRows task.id task now db.nextId 0 (s :: rest) := by
      rw [List.filter_append, hfil0, List.nil_append]
      apply List.filter_eq_self.mpr
      intro a ha
      simpa using shardRows_parent task.id task now (s :: rest) db.nextId 0 a ha
    have hshards2 : getShardsByParentId
        { tasks := db.tasks ++ shardRows task.id task now db.nextId 0 (s :: rest),
          nextId := db.nextId + (s :: rest).length } task.id =
        shardRows task.id task now db.nextId 0 (s :: rest) := by
      show List.insertionSort shardOrderLe
        ((db.tasks ++ shardRows task.id task now db.nextId 0 (s :: rest)).filter
          fun t => t.parent_task_id = some task.id) = _
      rw [hfil1]
      exact (shardRows_sorted task.id task now (s :: rest) db.nextId 0).insertionSort_eq
    have hne2 : getShardsByParentId
        { tasks := db.tasks ++ shardRows task.id task now db.nextId 0 (s :: rest),
          nextId := db.nextId + (s :: rest).length } task.id ≠ [] := by
      rw [hshards2]
      simp [shardRows]
    refine ⟨alreadyDecomposedResponse
        { tasks := db.tasks ++ shardRows task.id task now db.nextId 0 (s :: rest),
          nextId := db.nextId + (s :: rest).length } task.id task, ?_, ?_, rfl⟩
    · simp only [submitBreakdown, hfind2]
      rw [if_neg hne2]
    · show getShardsByParentId _ task.id = _
      rw [hshards2]

/-- C3 witness: a fresh decomposition of the sample parent followed by
a second breakdown call returns the same two shards and leaves the
store unchanged; on a store that already has shards, the call answers
the existing shards for any adapter result. -/
theorem submitBreakdown_idempotent_witness :
    (∃ db1 resp1, submitBreakdown sampleFreshDb 1 (.ok sampleLLM) "t0" = .ok (db1, resp1) ∧
      db1.tasks = sampleFreshDb.tasks ++ resp1.shards ∧
      ∃ resp2, submitBreakdown db1 1 (.ok sampleLLM) "t1" = .ok (db1, resp2) ∧
        resp2.shards = resp1.shards ∧
        resp2.message = some "Task already decomposed") ∧
    submitBreakdown sampleDb 1 (.error "no adapter") "t2" =
      .ok (sampleDb, alreadyDecomposedResponse sampleDb 1 sampleParent) := by
  constructor
  · exact (submitBreakdown_idempotent sampleFreshDb 1 sampleParent sampleLLM
      (.ok sampleLLM) "t0" "t1" (by decide)).2
      { title := "book flights" } [{ title := "pack bags", gravity := some "High" }]
      rfl (by decide)
  · exact (submitBreakdown_idempotent sampleDb 1 sampleParent sampleLLM
      (.ok sampleLLM) "t0" "t1" (by decide)).1 (by decide) (.error "no adapter") "t2"

/-- C5: a successful provider response whose transcript is empty or
whitespace-only makes the pipeline return — not throw — the dedicated
unintelligible result (`success` false, `is_unintelligible` true),
with the store untouched: no task row is persisted, and the outcome is
`.ok`, unlike the generic failure path which rethrows as `.error`. -/
theorem capture_unintelligible (db : Storage) (t : String)
    (corrO : Except String Unit) (extractO : Except String ExtractedTask)
    (insertO : Except String Unit) (now : String)
    (hblank : jsTrim t = "") :
    processAudioEntry db (.ok ()) true (.ok (some t)) corrO extractO insertO now =
      ⟨["context_loading", "context_loaded", "transcription_start", "error"],
       .ok { success := false, error := some unintelligibleMessage,
             is_unintelligible := true },
       db⟩ := by
  simp [processAudioEntry, captureAttempt, transcribeAudio, hblank]

/-- C5 witness: a concrete whitespace-only transcript yields the
returned unintelligible result on the sample store. -/
theorem capture_unintelligible_witness :
    processAudioEntry sampleFreshDb (.ok ()) true (.ok (some "   ")) (.ok ())
        (.ok {}) (.ok ()) "t0" =
      ⟨["context_loading", "context_loaded", "transcription_start", "error"],
       .ok { success := false, error := some unintelligibleMessage,
             is_unintelligible := true },
       sampleFreshDb⟩ :=
  capture_unintelligible sampleFreshDb "   " (.ok ()) (.ok {}) (.ok ()) "t0" (by decide)

/-- Whatever the oracles resolve to, the stages emitted inside the try
block of the pipeline are never terminal. -/
theorem captureAttempt_events_nonterminal (db : Storage) (ctxO : Except String Unit)
    (keySet : Bool) (resp : Except String (Option String)) (corrO : Except String Unit)
    (extractO : Except String ExtractedTask) (insertO : Except String Unit) (now : String) :
    ((captureAttempt db ctxO keySet resp corrO extractO insertO now).1).all
      (fun s => !isTerminalStage s) = true := by
  unfold captureAttempt transcribeAudio
  rcases ctxO with e | u
  · rfl
  · cases keySet
    · rfl
    · rcases resp with e | t?
      · rfl
      · rcases t? with _ | t
        · rfl
        · rcases corrO with e | u2 <;> rcases extractO with e2 | ex <;>
            rcases insertO with e3 | u3 <;> by_cases ht : jsTrim t = "" <;>
            simp [ht, isTerminalStage]

/-- Whatever the oracles resolve to, a result the try block returns
normally has its success flag set: the only normally returned failure
result is produced later, by the catch block. -/
theorem captureAttempt_ok_success (db : Storage) (ctxO : Except String Unit)
    (keySet : Bool) (resp : Except String (Option String)) (corrO : Except String Unit)
    (extractO : Except String ExtractedTask) (insertO : Except String Unit) (now : String)
    (ev : List String) (res : CaptureResult) (db1 : Storage)
    (h : captureAttempt db ctxO keySet resp corrO extractO insertO now =
      (ev, .ok (res, db1))) :
    res.success = true := by
  unfold captureAttempt transcribeAudio at h
  rcases ctxO with e | u
  · exact absurd h (by simp)
  · cases keySet
    · exact absurd h (by simp)
    · rcases resp with e | t?
      · exact absurd h (by simp)
      · rcases t? with _ | t
        · exact absurd h (by simp)
        · rcases corrO with e | u2 <;> rcases extractO with e2 | ex <;>
            rcases insertO with e3 | u3 <;> by_cases ht : jsTrim t = "" <;>
            simp [ht] at h
          rw [← h.2.1]

/-- C6: every progress-tracked pipeline run emits exactly one terminal
stage and it is the last stage emitted — no event for the request
follows it — and the terminal stage matches the outcome: a run that
resolves successfully ends in complete; the unintelligible
short-circuit (the only normally returned failure) ends in error, the
result field pinning the failure message the code hands to that error
event; and a run that rethrows any exception ends in error, the
emitted message being the message of the rethrown error itself. -/
theorem capture_single_terminal_event (db : Storage) (ctxO : Except String Unit)
    (keySet : Bool) (resp : Except String (Option String)) (corrO : Except String Unit)
    (extractO : Except String ExtractedTask) (insertO : Except String Unit) (now : String) :
    ∃ pre last,
      (processAudioEntry db ctxO keySet resp corrO extractO insertO now).events =
        pre ++ [last] ∧
      isTerminalStage last = true ∧
      pre.all (fun s => !isTerminalStage s) = true ∧
      (∀ res, (processAudioEntry db ctxO keySet resp corrO extractO insertO now).outcome =
          .ok res →
        (res.success = true → last = "complete") ∧
        (res.success = false →
          last = "error" ∧ res.is_unintelligible = true ∧
          res.error = some unintelligibleMessage)) ∧
      (∀ e, (processAudioEntry db ctxO keySet resp corrO extractO insertO now).outcome =
          .error e → last = "error") := by
  have hnt := captureAttempt_events_nonterminal db ctxO keySet resp corrO extractO insertO now
  unfold processAudioEntry
  cases hca : captureAttempt db ctxO keySet resp corrO extractO insertO now with
  | mk ev out =>
    rw [hca] at hnt
    cases out with
    | ok p =>
      obtain ⟨res0, db1⟩ := p
      have hs := captureAttempt_ok_success db ctxO keySet resp corrO extractO insertO now
        ev res0 db1 hca
      refine ⟨ev, "complete", rfl, rfl, hnt, ?_, ?_⟩
      · intro res hres
        have hres2 : Except.ok res0 = Except.ok res := hres
        have hres3 : res0 = res := by injection hres2
        subst hres3
        constructor
        · intro _; rfl
        · intro hf
          rw [hs] at hf
          exact Bool.noConfusion hf
      · intro e he
        have he2 : (Except.ok res0 : Except String CaptureResult) = Except.error e := he
        exact Except.noConfusion he2
    | error e =>
      dsimp only
      split
      · refine ⟨ev, "error", rfl, rfl, hnt, ?_, ?_⟩
        · intro res hres
          have hres3 : ({ success := false, error := some unintelligibleMessage, is_unintelligible := true } : CaptureResult) = res := by injection hres
          subst hres3
          constructor
          · intro htv
            exact Bool.noConfusion htv
          · intro _
            exact ⟨rfl, rfl, rfl⟩
        · intro e' _
          rfl
      · refine ⟨ev, "error", rfl, rfl, hnt, ?_, ?_⟩
        · intro res hres
          have hres2 : (Except.error e : Except String CaptureResult) = Except.ok res := hres
          exact Except.noConfusion hres2
        · intro e' _
          rfl

/-- C6 witness: a concrete successful run ends in the complete stage
and a concrete run whose extraction stage throws ends in the error
stage. -/
theorem capture_single_terminal_event_witness :
    (∃ pre, (processAudioEntry sampleFreshDb (.ok ()) true (.ok (some "hello")) (.ok ())
      (.ok {}) (.ok ()) "t0").events = pre ++ ["complete"]) ∧
    (∃ pre, (processAudioEntry sampleFreshDb (.ok ()) true (.ok (some "hello")) (.ok ())
      (.error "boom") (.ok ()) "t0").events = pre ++ ["error"]) := by
  constructor
  · obtain ⟨pre, last, hev, _, _, hok, _⟩ := capture_single_terminal_event sampleFreshDb
      (.ok ()) true (.ok (some "hello")) (.ok ()) (.ok {}) (.ok ()) "t0"
    have hlast := (hok _ rfl).1 rfl
    exact ⟨pre, hlast ▸ hev⟩
  · obtain ⟨pre, last, hev, _, _, _, herr⟩ := capture_single_terminal_event sampleFreshDb
      (.ok ()) true (.ok (some "hello")) (.ok ()) (.error "boom") (.ok ()) "t0"
    have hlast := herr "boom" rfl
    exact ⟨pre, hlast ▸ hev⟩

end Flux
